import Mathlib

/-!
Shallow embedding of the `openclaw` utilities:
`src/scripts/analyze_code_files.py` (tree scanner and reporter) and the
QR scripts `src/skills/qr-code/scripts/qr_generate.py` and
`src/skills/qr-code/scripts/qr_read.py`.

Python machine model: unbounded integers, lists as `List`, dicts with
insertion order as association lists, filesystem trees as an inductive
type, and external library calls (PIL, pyzbar, qrcode) as oracle
parameters.
-/

/-- Python `str.lower()` (ASCII case mapping, per-character). -/
def asciiLower (s : String) : String := ⟨s.data.map Char.toLower⟩

/-- Python `str.upper()` (ASCII case mapping, per-character). -/
def asciiUpper (s : String) : String := ⟨s.data.map Char.toUpper⟩

/-- Python `s.endswith(sfx)`. -/
def strEndsWith (s sfx : String) : Bool := sfx.data.isSuffixOf s.data

namespace Analyze

/-- Constant `CODE_EXTENSIONS` of analyze_code_files.py: extensions considered code. -/
def CODE_EXTENSIONS : List String :=
  [".ts", ".tsx", ".js", ".jsx", ".mjs", ".cjs",
   ".swift",
   ".kt", ".java",
   ".py", ".sh"]

/-- Constant `SKIP_DIRS`: directory names pruned from the walk. -/
def SKIP_DIRS : List String :=
  ["node_modules", ".git", "dist", "build", "coverage",
   "__pycache__", ".turbo", "out", ".worktrees", "vendor",
   "Pods", "DerivedData", ".gradle", ".idea"]

/-- Constant `SKIP_SHORT_PATTERNS`: exact filenames exempt from short-file warnings. -/
def SKIP_SHORT_PATTERNS : List String :=
  ["index.js", "index.ts", "postinstall.js"]

/-- Constant `SKIP_SHORT_SUFFIXES`: filename suffixes exempt from short-file warnings. -/
def SKIP_SHORT_SUFFIXES : List String :=
  ["-cli.ts"]

/-- Constant `PACKAGES`: known top-level package directory names. -/
def PACKAGES : List String :=
  ["src", "apps", "extensions", "packages", "scripts", "ui", "test", "docs"]

/-- Python `pathlib.Path.suffix` of a file name: the substring from the last dot,
provided that dot is neither the first nor the last character; else `""`. -/
def pathSuffix (name : String) : String :=
  let cs := name.data
  match (cs.reverse).indexOf? '.' with
  | none => ""
  | some r =>
    let i := cs.length - 1 - r
    if 0 < i ∧ i < cs.length - 1 then String.mk (cs.drop i) else ""

/-- A regular file: its name and, when readable, its lines
(`none` models a file whose open/read raises). -/
structure FileEntry where
  name : String
  content : Option (List String)
deriving DecidableEq

/-- Function `count_lines`: number of lines of a file, 0 when reading raises. -/
def count_lines (content : Option (List String)) : Nat :=
  match content with
  | none => 0
  | some ls => ls.length

mutual
/-- A directory: its regular files and named subdirectories. -/
inductive FSTree where
  | node (files : List FileEntry) (subdirs : SubdirList)
/-- The subdirectories of a directory, in `os.walk` order. -/
inductive SubdirList where
  | nil
  | cons (name : String) (tree : FSTree) (rest : SubdirList)
end

/-- One scanned file: directory segments relative to the scan root,
file name, and line count (a `(file_path, line_count)` pair). -/
structure Record where
  dir : List String
  name : String
  lines : Nat
deriving DecidableEq

/-- The in-place prune `dirnames[:] = [d for d in dirnames if d not in SKIP_DIRS]`. -/
def pruneSubdirs : SubdirList → SubdirList
  | .nil => .nil
  | .cons n t rest =>
    if SKIP_DIRS.contains n then pruneSubdirs rest
    else .cons n t (pruneSubdirs rest)

/-- The per-directory body of `find_code_files`: records for the files of
one directory whose extension (lower-cased) is in `CODE_EXTENSIONS`. -/
def dirRecords (dirs : List String) (files : List FileEntry) : List Record :=
  files.filterMap fun f =>
    if CODE_EXTENSIONS.contains (asciiLower (pathSuffix f.name)) then
      some ⟨dirs, f.name, count_lines f.content⟩
    else none

mutual
/-- Body of `find_code_files` from a directory reached at path `dirs`:
yields the code files of this directory, then walks the non-pruned
subdirectories (skipping a `SKIP_DIRS` name at descent is extensionally
the in-place prune of `dirnames`; `walkSubdirs_pruneSubdirs` below
proves the two formulations equal). -/
def walkFrom (dirs : List String) : FSTree → List Record
  | .node files subdirs =>
    dirRecords dirs files ++ walkSubdirs dirs subdirs
/-- Walk each subdirectory in order, extending the path; a subdirectory
whose name is in `SKIP_DIRS` is never descended into. -/
def walkSubdirs (dirs : List String) : SubdirList → List Record
  | .nil => []
  | .cons n t rest =>
    (if SKIP_DIRS.contains n then [] else walkFrom (dirs ++ [n]) t)
      ++ walkSubdirs dirs rest
end

/-- Function `find_code_files(root_dir)`: all code files under the root with their
line counts, paths taken relative to the root. -/
def find_code_files (root : FSTree) : List Record :=
  walkFrom [] root

/-- Function `get_package(file_path, root_dir)`: first segment of the path relative
to the root when it is a known package, else `"root"`; `relative_to`
raising `ValueError` (path outside root) is the non-prefix branch. -/
def get_package (file_path root_dir : List String) : String :=
  if root_dir.isPrefixOf file_path then
    match file_path.drop root_dir.length with
    | p :: _ => if PACKAGES.contains p then p else "root"
    | [] => "root"
  else "root"

/-- Python `sorted(files, key=lambda x: x[1], reverse=True)` — stable descending
sort by line count. -/
def files_desc (files : List Record) : List Record :=
  files.mergeSort fun a b => decide (b.lines ≤ a.lines)

/-- Python `sorted(files, key=lambda x: x[1])` — stable ascending sort by line count. -/
def files_asc (files : List Record) : List Record :=
  files.mergeSort fun a b => decide (a.lines ≤ b.lines)

/-- Slice `files_desc[:args.top]`. -/
def top_files (files : List Record) (top : Nat) : List Record :=
  (files_desc files).take top

/-- Slice `files_asc[:args.bottom]`. -/
def bottom_files (files : List Record) (bottom : Nat) : List Record :=
  (files_asc files).take bottom

/-- Predicate `is_expected_short` in main: the filename is a known barrel/stub name
or carries an exempt suffix. -/
def is_expected_short (filename : String) : Bool :=
  SKIP_SHORT_PATTERNS.contains filename
    || SKIP_SHORT_SUFFIXES.any fun sfx => strEndsWith filename sfx

/-- List `long_warnings`: records of the top slice with `line_count >= threshold`. -/
def long_warnings (files : List Record) (threshold : Int) (top : Nat) :
    List Record :=
  (top_files files top).filter fun r => decide (threshold ≤ (r.lines : Int))

/-- List `short_warnings`: records of the bottom slice with
`line_count <= min_threshold` and a non-exempt filename. -/
def short_warnings (files : List Record) (min_threshold : Int) (bottom : Nat) :
    List Record :=
  (bottom_files files bottom).filter fun r =>
    decide ((r.lines : Int) ≤ min_threshold) && !(is_expected_short r.name)

/-- Total `total_files = len(files)`. -/
def total_files (files : List Record) : Nat := files.length

/-- Total `total_lines = sum(count for _, count in files)`. -/
def total_lines (files : List Record) : Nat := (files.map Record.lines).sum

/-- Average `total_lines // total_files if total_files else 0`. -/
def average_lines (files : List Record) : Nat :=
  if total_files files ≠ 0 then total_lines files / total_files files else 0

/-- Per-package accumulator entry: the dict with keys `files` and `lines`. -/
structure PkgStats where
  files : Nat
  lines : Nat
deriving DecidableEq

/-- One step of the per-package fold: create the key with zeroed
counters if absent, then add 1 to `files` and `line_count` to `lines`.
The dict keeps insertion order, modelled as an association list. -/
def addStat (stats : List (String × PkgStats)) (pkg : String)
    (line_count : Nat) : List (String × PkgStats) :=
  match stats with
  | [] => [(pkg, ⟨1, line_count⟩)]
  | (k, s) :: rest =>
    if k = pkg then (k, ⟨s.files + 1, s.lines + line_count⟩) :: rest
    else (k, s) :: addStat rest pkg line_count

/-- Fold `package_stats`: fold every record into its package bucket, the
package taken from the absolute path `root_dir ++ dir ++ [name]`. -/
def package_stats (files : List Record) (root_dir : List String) :
    List (String × PkgStats) :=
  files.foldl
    (fun m r => addStat m (get_package (root_dir ++ r.dir ++ [r.name]) root_dir) r.lines)
    []

/-- Sum of the per-package `files` counters. -/
def pkg_files_total (stats : List (String × PkgStats)) : Nat :=
  (stats.map fun p => p.2.files).sum

/-- Sum of the per-package `lines` counters. -/
def pkg_lines_total (stats : List (String × PkgStats)) : Nat :=
  (stats.map fun p => p.2.lines).sum

/-- Per-package average: `lines // files` when `files` is nonzero, else 0. -/
def pkg_avg (s : PkgStats) : Nat :=
  if s.files ≠ 0 then s.lines / s.files else 0

/-- The subdirectory list has an entry named `n` holding the tree `t`. -/
def SubdirList.Memb (n : String) (t : FSTree) : SubdirList → Prop
  | .nil => False
  | .cons m u rest => (n = m ∧ t = u) ∨ SubdirList.Memb n t rest

/-- The file `f` sits at relative directory path `ds` inside the tree,
with no excluded directory name along the way (so `os.walk` visits it). -/
inductive ReachesFile : FSTree → List String → FileEntry → Prop where
  | here (files : List FileEntry) (subdirs : SubdirList) (f : FileEntry)
      (hf : f ∈ files) : ReachesFile (.node files subdirs) [] f
  | there (files : List FileEntry) (subdirs : SubdirList) (n : String)
      (t : FSTree) (ds : List String) (f : FileEntry)
      (hmem : SubdirList.Memb n t subdirs)
      (hskip : SKIP_DIRS.contains n = false)
      (h : ReachesFile t ds f) : ReachesFile (.node files subdirs) (n :: ds) f

end Analyze

namespace QR

/-- The four `qrcode.constants` error-correction levels. -/
inductive ErrorCorrection where
  | ecL
  | ecM
  | ecQ
  | ecH
deriving DecidableEq

/-- Dict `ERROR_LEVELS` of qr_generate.py, ordered and string-keyed. -/
def ERROR_LEVELS : List (String × ErrorCorrection) :=
  [("L", .ecL), ("M", .ecM), ("Q", .ecQ), ("H", .ecH)]

/-- Python dict lookup `ERROR_LEVELS.get(key, default)`. -/
def levelsGet (key : String) (dflt : ErrorCorrection) : ErrorCorrection :=
  match ERROR_LEVELS.find? (fun p => p.1 == key) with
  | some p => p.2
  | none => dflt

/-- The `qrcode.QRCode(...)` construction arguments plus the payload and
the `fit=True` flag passed to `qr.make`. -/
structure QRParams where
  version : Option Nat
  error_correction : ErrorCorrection
  box_size : Int
  border : Int
  data : String
  fit : Bool
deriving DecidableEq

/-- Function `generate_qr(data, output_path, box_size, border, error_level)`:
builds the QR parameters (version `None` for auto-sizing, error
correction `ERROR_LEVELS.get(error_level.upper(), ERROR_CORRECT_M)`),
adds the data, makes and saves the image, and returns `output_path`. -/
def generate_qr (data output_path : String) (box_size border : Int)
    (error_level : String) : QRParams × String :=
  let qr : QRParams :=
    { version := none
      error_correction := levelsGet (asciiUpper error_level) .ecM
      box_size := box_size
      border := border
      data := data
      fit := true }
  (qr, output_path)

/-- A raised Python exception: its class name and its `str(e)` message. -/
structure PyErr where
  ty : String
  msg : String
deriving DecidableEq

/-- An opaque PIL image handle. -/
structure Image where
  id : Nat
deriving DecidableEq

/-- A pyzbar bounding rectangle. -/
structure PyRect where
  left : Int
  top : Int
  width : Int
  height : Int
deriving DecidableEq

/-- One pyzbar decoded object: raw payload bytes, symbol type, rectangle. -/
structure Decoded where
  data : List Nat
  type : String
  rect : PyRect

/-- One entry of the result list of `read_qr`: a dict with keys `data`,
`type` and `rect`, the latter a dict of the four rectangle fields. -/
structure QRResult where
  data : String
  type : String
  rect : PyRect
deriving DecidableEq

/-- Function `read_qr(image_path)`. External calls appear as oracles: `openImage`
is the outcome of `Image.open(image_path)`, `decode` is
`pyzbar.decode(img, symbols=[QRCODE])`, and `decodeBytes` is
the lossy `bytes.decode` with the utf-8 codec. A failing open is re-raised
as `ValueError(f"Could not open image: {e}")`; an empty decode list
returns `None`; otherwise each object is turned into a result dict. -/
def read_qr (openImage : Except PyErr Image) (decode : Image → List Decoded)
    (decodeBytes : List Nat → String) :
    Except PyErr (Option (List QRResult)) :=
  match openImage with
  | .error e =>
    .error { ty := "ValueError", msg := "Could not open image: " ++ e.msg }
  | .ok img =>
    let decoded_objects := decode img
    if decoded_objects.isEmpty then .ok none
    else
      .ok (some (decoded_objects.map fun obj =>
        { data := decodeBytes obj.data
          type := obj.type
          rect := { left := obj.rect.left, top := obj.rect.top,
                    width := obj.rect.width, height := obj.rect.height } }))

end QR

namespace Analyze

/-- Fidelity of the walk to the in-place prune of the source: walking the
`pruneSubdirs`-filtered list is the same as skipping excluded names at
descent. -/
theorem walkSubdirs_pruneSubdirs (dirs : List String) :
    ∀ l : SubdirList, walkSubdirs dirs (pruneSubdirs l) = walkSubdirs dirs l
  | .nil => rfl
  | .cons n t rest => by
    by_cases h : n ∈ SKIP_DIRS
    · simp [pruneSubdirs, h, walkSubdirs, walkSubdirs_pruneSubdirs dirs rest]
    · simp [pruneSubdirs, h, walkSubdirs, walkSubdirs_pruneSubdirs dirs rest]

mutual
/-- Soundness of the walk: every record it returns lies at `dirs`
extended by segments that are all non-excluded, and its extension
(lower-cased) is on the allow-list. -/
theorem walkFrom_sound : ∀ (dirs : List String) (t : FSTree) (r : Record),
    r ∈ walkFrom dirs t →
    ∃ ds, r.dir = dirs ++ ds ∧ (∀ d ∈ ds, SKIP_DIRS.contains d = false) ∧
      CODE_EXTENSIONS.contains (asciiLower (pathSuffix r.name)) = true
  | dirs, .node files subdirs, r, h => by
    rw [walkFrom] at h
    rcases List.mem_append.mp h with hl | hr
    · rcases List.mem_filterMap.mp hl with ⟨f, -, hf⟩
      by_cases hext : CODE_EXTENSIONS.contains (asciiLower (pathSuffix f.name)) = true
      · rw [if_pos hext] at hf
        cases hf
        exact ⟨[], by simp, by simp, hext⟩
      · rw [if_neg hext] at hf
        cases hf
    · exact walkSubdirs_sound dirs subdirs r hr

/-- Soundness of the subdirectory walk, by the same invariant. -/
theorem walkSubdirs_sound : ∀ (dirs : List String) (l : SubdirList) (r : Record),
    r ∈ walkSubdirs dirs l →
    ∃ ds, r.dir = dirs ++ ds ∧ (∀ d ∈ ds, SKIP_DIRS.contains d = false) ∧
      CODE_EXTENSIONS.contains (asciiLower (pathSuffix r.name)) = true
  | dirs, .nil, r, h => by rw [walkSubdirs] at h; cases h
  | dirs, .cons n t rest, r, h => by
    rw [walkSubdirs] at h
    rcases List.mem_append.mp h with hl | hr
    · by_cases hc : SKIP_DIRS.contains n = true
      · rw [if_pos hc] at hl
        cases hl
      · rw [if_neg hc] at hl
        obtain ⟨ds, hdir, hall, hext⟩ := walkFrom_sound (dirs ++ [n]) t r hl
        refine ⟨n :: ds, by simpa using hdir, ?_, hext⟩
        intro d hd
        rcases List.mem_cons.mp hd with rfl | hd
        · exact Bool.eq_false_iff.mpr hc
        · exact hall d hd
    · exact walkSubdirs_sound dirs rest r hr
end

/-- C2: every file lying under a directory whose name is in `SKIP_DIRS`
is absent from the result of `find_code_files`; the walk never descends
through an excluded directory name. -/
theorem find_code_files_excluded_dir_absent (t : FSTree) (r : Record)
    (d : String) (hd : d ∈ r.dir) (hskip : d ∈ SKIP_DIRS) :
    r ∉ find_code_files t := by
  intro hmem
  obtain ⟨ds, hdir, hall, -⟩ := walkFrom_sound [] t r hmem
  rw [hdir] at hd
  simp only [List.nil_append] at hd
  have hfalse := hall d hd
  have htrue : SKIP_DIRS.contains d = true := List.elem_iff.mpr hskip
  rw [htrue] at hfalse
  cases hfalse

/-- C2 witness at a concrete tree: the record for `vendor/x.py` is not
among the scanned files of the empty root. -/
theorem find_code_files_excluded_dir_absent_witness :
    "vendor" ∈ (⟨["vendor"], "x.py", 1⟩ : Record).dir ∧
    "vendor" ∈ SKIP_DIRS ∧
    (⟨["vendor"], "x.py", 1⟩ : Record) ∉ find_code_files (.node [] .nil) :=
  ⟨by decide, by decide,
    find_code_files_excluded_dir_absent (.node [] .nil)
      ⟨["vendor"], "x.py", 1⟩ "vendor" (by decide) (by decide)⟩

/-- C8: a file whose extension, lower-cased, is not in `CODE_EXTENSIONS`
is absent from the result of `find_code_files`. -/
theorem find_code_files_ext_absent (t : FSTree) (r : Record)
    (h : asciiLower (pathSuffix r.name) ∉ CODE_EXTENSIONS) :
    r ∉ find_code_files t := by
  intro hmem
  obtain ⟨-, -, -, hext⟩ := walkFrom_sound [] t r hmem
  exact h (List.elem_iff.mp hext)

/-- C8 witness at a concrete tree: `README.md` is scanned over but never
reported, its extension not being a code extension. -/
theorem find_code_files_ext_absent_witness :
    asciiLower (pathSuffix "README.md") ∉ CODE_EXTENSIONS ∧
    (⟨[], "README.md", 3⟩ : Record) ∉
      find_code_files (.node [⟨"README.md", some ["a", "b", "c"]⟩] .nil) :=
  ⟨by decide,
    find_code_files_ext_absent
      (.node [⟨"README.md", some ["a", "b", "c"]⟩] .nil)
      ⟨[], "README.md", 3⟩ (by decide)⟩

/-- A record produced inside a listed, non-excluded subdirectory is a
record of the walk of the whole list. -/
theorem mem_walkSubdirs_of_memb (dirs : List String) (n : String) (t : FSTree)
    (r : Record) :
    ∀ l : SubdirList, SubdirList.Memb n t l → SKIP_DIRS.contains n = false →
      r ∈ walkFrom (dirs ++ [n]) t → r ∈ walkSubdirs dirs l
  | .nil, hmem, _, _ => absurd hmem (by rw [SubdirList.Memb]; exact not_false)
  | .cons m u rest, hmem, hskip, hr => by
    rw [SubdirList.Memb] at hmem
    rw [walkSubdirs]
    apply List.mem_append.mpr
    rcases hmem with ⟨rfl, rfl⟩ | hmem
    · left
      rw [if_neg]
      · exact hr
      · intro hmem
        rw [hskip] at hmem
        exact Bool.noConfusion hmem
    · right
      exact mem_walkSubdirs_of_memb dirs n t r rest hmem hskip hr

/-- Completeness of the walk: a reachable file with an allow-listed
extension produces its record, whatever directory prefix the walk
started from. -/
theorem reaches_mem_walkFrom (t : FSTree) (ds : List String) (f : FileEntry)
    (h : ReachesFile t ds f) :
    CODE_EXTENSIONS.contains (asciiLower (pathSuffix f.name)) = true →
    ∀ dirs : List String,
      (⟨dirs ++ ds, f.name, count_lines f.content⟩ : Record) ∈ walkFrom dirs t := by
  induction h with
  | here files subdirs f hf =>
    intro hext dirs
    rw [walkFrom]
    apply List.mem_append.mpr
    left
    exact List.mem_filterMap.mpr ⟨f, hf, by rw [if_pos hext]; simp⟩
  | there files subdirs n t ds f hmem hskip hr ih =>
    intro hext dirs
    rw [walkFrom]
    apply List.mem_append.mpr
    right
    have hmem' := ih hext (dirs ++ [n])
    exact mem_walkSubdirs_of_memb dirs n t _ subdirs hmem hskip
      (by simpa [List.append_assoc] using hmem')

/-- C5: counting lines of an unreadable file yields 0 rather than an
exception, and the scan continues: a reachable unreadable code file
still contributes a record, with line count 0. -/
theorem count_lines_unreadable_zero :
    count_lines none = 0 ∧
    ∀ (t : FSTree) (ds : List String) (f : FileEntry),
      ReachesFile t ds f → f.content = none →
      CODE_EXTENSIONS.contains (asciiLower (pathSuffix f.name)) = true →
      (⟨ds, f.name, 0⟩ : Record) ∈ find_code_files t := by
  refine ⟨rfl, ?_⟩
  intro t ds f h hnone hext
  have hm := reaches_mem_walkFrom t ds f h hext []
  simpa [find_code_files, hnone, count_lines] using hm

/-- C5 witness: a tree holding only the unreadable `bad.py` scans to a
record with line count 0. -/
theorem count_lines_unreadable_zero_witness :
    ReachesFile (.node [⟨"bad.py", none⟩] .nil) [] ⟨"bad.py", none⟩ ∧
    (⟨[], "bad.py", 0⟩ : Record) ∈
      find_code_files (.node [⟨"bad.py", none⟩] .nil) :=
  ⟨.here _ _ _ (by decide),
    count_lines_unreadable_zero.2 (.node [⟨"bad.py", none⟩] .nil) []
      ⟨"bad.py", none⟩ (.here _ _ _ (by decide)) rfl (by decide)⟩

/-- C6: `get_package` returns the first segment of the path relative to
the root exactly when it is a known package; otherwise — unknown first
segment, path equal to the root, or path outside the root (`relative_to`
raising) — it returns `"root"`. -/
theorem get_package_cases (fp rd : List String) :
    (∀ p rest, fp = rd ++ p :: rest → p ∈ PACKAGES → get_package fp rd = p) ∧
    (∀ p rest, fp = rd ++ p :: rest → p ∉ PACKAGES →
      get_package fp rd = "root") ∧
    (fp = rd → get_package fp rd = "root") ∧
    (rd.isPrefixOf fp = false → get_package fp rd = "root") := by
  refine ⟨?_, ?_, ?_, ?_⟩
  · rintro p rest rfl hp
    have hpre : rd.isPrefixOf (rd ++ p :: rest) = true :=
      List.isPrefixOf_iff_prefix.mpr (List.prefix_append rd _)
    simp [get_package, hpre, List.drop_left, hp]
  · rintro p rest rfl hp
    have hpre : rd.isPrefixOf (rd ++ p :: rest) = true :=
      List.isPrefixOf_iff_prefix.mpr (List.prefix_append rd _)
    simp [get_package, hpre, List.drop_left, hp]
  · rintro rfl
    have hpre : fp.isPrefixOf fp = true :=
      List.isPrefixOf_iff_prefix.mpr (List.prefix_refl fp)
    simp [get_package, hpre, List.drop_length]
  · intro h
    simp [get_package, h]

/-- C6 witness: under root `repo`, `repo/src/a.py` classifies as `src`. -/
theorem get_package_cases_witness :
    (["repo", "src", "a.py"] : List String) = ["repo"] ++ "src" :: ["a.py"] ∧
    "src" ∈ PACKAGES ∧
    get_package ["repo", "src", "a.py"] ["repo"] = "src" :=
  ⟨rfl, by decide,
    (get_package_cases ["repo", "src", "a.py"] ["repo"]).1 "src" ["a.py"]
      rfl (by decide)⟩

/-- One `addStat` step adds exactly one to the summed file counters. -/
theorem pkg_files_total_addStat :
    ∀ (m : List (String × PkgStats)) (pkg : String) (lc : Nat),
      pkg_files_total (addStat m pkg lc) = pkg_files_total m + 1
  | [], pkg, lc => by simp [addStat, pkg_files_total]
  | (k, s) :: rest, pkg, lc => by
    by_cases h : k = pkg
    · simp only [addStat, if_pos h, pkg_files_total, List.map_cons,
        List.sum_cons]
      omega
    · simp only [addStat, if_neg h, pkg_files_total, List.map_cons,
        List.sum_cons]
      have hrec := pkg_files_total_addStat rest pkg lc
      simp only [pkg_files_total] at hrec
      omega

/-- One `addStat` step adds exactly its line count to the summed lines. -/
theorem pkg_lines_total_addStat :
    ∀ (m : List (String × PkgStats)) (pkg : String) (lc : Nat),
      pkg_lines_total (addStat m pkg lc) = pkg_lines_total m + lc
  | [], pkg, lc => by simp [addStat, pkg_lines_total]
  | (k, s) :: rest, pkg, lc => by
    by_cases h : k = pkg
    · simp only [addStat, if_pos h, pkg_lines_total, List.map_cons,
        List.sum_cons]
      omega
    · simp only [addStat, if_neg h, pkg_lines_total, List.map_cons,
        List.sum_cons]
      have hrec := pkg_lines_total_addStat rest pkg lc
      simp only [pkg_lines_total] at hrec
      omega

/-- Accumulator invariant of the per-package fold: the summed counters
grow by exactly the records folded in. -/
theorem package_stats_fold_sums :
    ∀ (files : List Record) (rd : List String)
      (acc : List (String × PkgStats)),
      pkg_files_total (files.foldl
        (fun m r =>
          addStat m (get_package (rd ++ r.dir ++ [r.name]) rd) r.lines)
        acc) = pkg_files_total acc + files.length ∧
      pkg_lines_total (files.foldl
        (fun m r =>
          addStat m (get_package (rd ++ r.dir ++ [r.name]) rd) r.lines)
        acc) = pkg_lines_total acc + (files.map Record.lines).sum
  | [], rd, acc => by simp
  | r :: rest, rd, acc => by
    simp only [List.foldl_cons, List.length_cons, List.map_cons,
      List.sum_cons]
    obtain ⟨h1, h2⟩ := package_stats_fold_sums rest rd
      (addStat acc (get_package (rd ++ r.dir ++ [r.name]) rd) r.lines)
    rw [h1, h2, pkg_files_total_addStat, pkg_lines_total_addStat]
    exact ⟨by omega, by omega⟩

/-- C3: every record is attributed to exactly one package, so the
per-package file counts sum to the total file count and the per-package
line counters sum to the total line count. -/
theorem package_stats_totals (files : List Record) (rd : List String) :
    pkg_files_total (package_stats files rd) = total_files files ∧
    pkg_lines_total (package_stats files rd) = total_lines files := by
  have h := package_stats_fold_sums files rd []
  simpa [package_stats, total_files, total_lines, pkg_files_total,
    pkg_lines_total] using h

/-- C4: a record is a long-warning exactly when it is in the top slice
with `line_count >= threshold`; a record is a short-warning exactly when
it is in the bottom slice with `line_count <= min_threshold` and its
filename matches no exemption rule (exact exempt name or exempt suffix). -/
theorem warnings_iff (files : List Record) (threshold min_threshold : Int)
    (top bottom : Nat) (r : Record) :
    (r ∈ long_warnings files threshold top ↔
      r ∈ top_files files top ∧ threshold ≤ (r.lines : Int)) ∧
    (r ∈ short_warnings files min_threshold bottom ↔
      r ∈ bottom_files files bottom ∧ (r.lines : Int) ≤ min_threshold ∧
        r.name ∉ SKIP_SHORT_PATTERNS ∧
        ∀ sfx ∈ SKIP_SHORT_SUFFIXES, strEndsWith r.name sfx = false) := by
  constructor
  · simp [long_warnings, List.mem_filter]
  · simp [short_warnings, List.mem_filter, is_expected_short, and_assoc]

/-- C7: the empty scan reports zero files, zero lines, average 0 (no
division fault), and empty warning lists; a package bucket with zero
files has average 0. -/
theorem empty_scan_report (threshold min_threshold : Int)
    (top bottom : Nat) :
    total_files ([] : List Record) = 0 ∧
    total_lines ([] : List Record) = 0 ∧
    average_lines ([] : List Record) = 0 ∧
    long_warnings [] threshold top = [] ∧
    short_warnings [] min_threshold bottom = [] ∧
    ∀ lines : Nat, pkg_avg ⟨0, lines⟩ = 0 := by
  refine ⟨rfl, rfl, rfl, ?_, ?_, fun lines => rfl⟩
  · simp [long_warnings, top_files, files_desc]
  · simp [short_warnings, bottom_files, files_asc]

end Analyze

namespace QR

/-- C9: an `error_level` whose upper-cased form is none of L, M, Q, H is
not rejected: `generate_qr` falls back to error-correction level M and
still proceeds, returning the output path. -/
theorem generate_qr_unknown_level_defaults (data out : String)
    (bs bd : Int) (lvl : String)
    (h : asciiUpper lvl ∉ ["L", "M", "Q", "H"]) :
    (generate_qr data out bs bd lvl).1.error_correction = .ecM ∧
    (generate_qr data out bs bd lvl).2 = out := by
  refine ⟨?_, rfl⟩
  simp only [List.mem_cons, List.mem_singleton, not_or] at h
  obtain ⟨h1, h2, h3, h4, -⟩ := h
  have e1 : (("L" : String) == asciiUpper lvl) = false :=
    beq_eq_false_iff_ne.mpr fun hh => h1 hh.symm
  have e2 : (("M" : String) == asciiUpper lvl) = false :=
    beq_eq_false_iff_ne.mpr fun hh => h2 hh.symm
  have e3 : (("Q" : String) == asciiUpper lvl) = false :=
    beq_eq_false_iff_ne.mpr fun hh => h3 hh.symm
  have e4 : (("H" : String) == asciiUpper lvl) = false :=
    beq_eq_false_iff_ne.mpr fun hh => h4 hh.symm
  simp [generate_qr, levelsGet, ERROR_LEVELS, List.find?, e1, e2, e3, e4]

/-- C9 witness: error level `"x"` upper-cases to `"X"`, unknown, and the
generation proceeds with level M. -/
theorem generate_qr_unknown_level_defaults_witness :
    asciiUpper "x" ∉ ["L", "M", "Q", "H"] ∧
    (generate_qr "hello" "out.png" 10 4 "x").1.error_correction = .ecM ∧
    (generate_qr "hello" "out.png" 10 4 "x").2 = "out.png" :=
  ⟨by decide,
    (generate_qr_unknown_level_defaults "hello" "out.png" 10 4 "x"
      (by decide)).1,
    (generate_qr_unknown_level_defaults "hello" "out.png" 10 4 "x"
      (by decide)).2⟩

/-- C10: when the image cannot be opened, `read_qr` raises a
`ValueError` whose message wraps the underlying open error — it neither
returns an empty result nor re-raises the original exception type. -/
theorem read_qr_open_failure (e : PyErr) (decode : Image → List Decoded)
    (decodeBytes : List Nat → String) :
    read_qr (.error e) decode decodeBytes =
      .error ⟨"ValueError", "Could not open image: " ++ e.msg⟩ := rfl

/-- C1 counterexample: on an image where the decoder finds no symbol,
`read_qr` returns the distinct value `None`, not an empty result list. -/
theorem read_qr_none_cex :
    read_qr (.ok ⟨0⟩) (fun _ => []) (fun _ => "") = .ok none ∧
    (Except.ok none : Except PyErr (Option (List QRResult))) ≠
      .ok (some []) :=
  ⟨rfl, by simp⟩

/-- C1 amended: when the decoder finds no symbol, `read_qr` returns the
sentinel `None` — a normal return, not an error (and not an empty list). -/
theorem read_qr_no_symbol_none (img : Image)
    (decode : Image → List Decoded) (decodeBytes : List Nat → String)
    (h : decode img = []) :
    read_qr (.ok img) decode decodeBytes = .ok none := by
  simp [read_qr, h]

/-- C1 amended witness at a concrete image and decoder. -/
theorem read_qr_no_symbol_none_witness :
    (fun _ : Image => ([] : List Decoded)) ⟨1⟩ = [] ∧
    read_qr (.ok ⟨1⟩) (fun _ => []) (fun _ => "") = .ok none :=
  ⟨rfl, read_qr_no_symbol_none ⟨1⟩ (fun _ => []) (fun _ => "") rfl⟩

end QR
